import Mathlib

/-!
Verification model of the wheel-strategy options simulator.

Shallow embedding conventions:
* Python `float` values flowing through portfolio accounting are modelled as
  exact rationals `ℚ` (those code paths only add, subtract, multiply and
  compare, so the idealisation is the usual one); the Black-Scholes pricing
  functions are modelled over `ℝ`; the strike-ladder generator, whose observable
  output depends on IEEE-754 binary64 rounding, is modelled bit-exactly over `ℤ`
  (values scaled by `2 ^ 70`).
* Python `datetime` values are day ordinals `ℤ` (the code only compares them
  and takes day differences).
* Python `int` is `ℤ`.
* A Python `dict[str, StockPosition]` is an insertion-ordered association list
  `List StockPosition` keyed by the `symbol` field, with `dictGet` / `dictSet` /
  `dictDel` mimicking lookup, assignment and deletion.
* A method that can `raise ValueError` returns an `OpResult`: `ok p` is normal
  return with the updated portfolio, `err e p` is an exception carrying the
  portfolio state at the moment the exception is raised (Python mutates in
  place, so state mutated before the raise is kept).
* `datetime.now()` timestamps in the transaction log are wall-clock
  nondeterminism and are omitted from the `Transaction` record; the type,
  amount and description fields are kept.  Numeric interpolation inside log
  description strings is elided: descriptions are fixed strings.
-/

namespace WheelSim

/-- `PositionStatus` from `position.py`. -/
inductive PositionStatus where
  | OPEN
  | EXPIRED_WORTHLESS
  | ASSIGNED
  | CALLED_AWAY
  | CLOSED
deriving DecidableEq

/-- The `Literal['call', 'put']` type of `OptionsPosition.option_type`. -/
inductive OptionType where
  | call
  | put
deriving DecidableEq

/-- `OptionsPosition` dataclass from `position.py`. -/
structure OptionsPosition where
  symbol : String
  option_type : OptionType
  strike : ℚ
  expiration : ℤ
  premium_received : ℚ
  contracts : ℤ
  entry_date : ℤ
  status : PositionStatus := .OPEN
  exit_date : Option ℤ := none
  stock_price_at_entry : ℚ := 0
  stock_price_at_exit : ℚ := 0
deriving DecidableEq

/-- `OptionsPosition.days_to_expiration`. -/
def OptionsPosition.days_to_expiration (pos : OptionsPosition) (current_date : ℤ) : ℤ :=
  if pos.expiration ≤ current_date then 0 else pos.expiration - current_date

/-- `OptionsPosition.total_premium`. -/
def OptionsPosition.total_premium (pos : OptionsPosition) : ℚ :=
  pos.premium_received * pos.contracts * 100

/-- `OptionsPosition.is_expired`. -/
def OptionsPosition.is_expired (pos : OptionsPosition) (current_date : ℤ) : Bool :=
  decide (pos.expiration ≤ current_date)

/-- `StockPosition` dataclass from `position.py`. -/
structure StockPosition where
  symbol : String
  shares : ℤ
  cost_basis : ℚ
  acquisition_date : ℤ
  assigned_from_put : Bool := false
deriving DecidableEq

/-- `StockPosition.total_cost`. -/
def StockPosition.total_cost (sp : StockPosition) : ℚ := sp.shares * sp.cost_basis

/-- `StockPosition.current_value`. -/
def StockPosition.current_value (sp : StockPosition) (current_price : ℚ) : ℚ :=
  sp.shares * current_price

/-- `StockPosition.unrealized_pnl`. -/
def StockPosition.unrealized_pnl (sp : StockPosition) (current_price : ℚ) : ℚ :=
  sp.current_value current_price - sp.total_cost

/-- One entry of `Portfolio.transaction_history` (timestamp omitted, see header). -/
structure Transaction where
  txn_type : String
  amount : ℚ
  description : String
deriving DecidableEq

/-- The `Portfolio` class state. -/
structure Portfolio where
  initial_capital : ℚ
  cash : ℚ
  stock_positions : List StockPosition
  options_positions : List OptionsPosition
  closed_positions : List OptionsPosition
  transaction_history : List Transaction
deriving DecidableEq

/-- `Portfolio.__init__`. -/
def Portfolio.init (initial_capital : ℚ) : Portfolio :=
  { initial_capital := initial_capital
    cash := initial_capital
    stock_positions := []
    options_positions := []
    closed_positions := []
    transaction_history := [] }

/-- `self.stock_positions.get(symbol)` on the insertion-ordered dict model. -/
def dictGet (l : List StockPosition) (sym : String) : Option StockPosition :=
  l.find? (fun sp => sp.symbol == sym)

/-- `self.stock_positions[symbol] = v` on the dict model: replace the entry
holding the key, else append. -/
def dictSet : List StockPosition → String → StockPosition → List StockPosition
  | [], _, v => [v]
  | h :: t, sym, v => if h.symbol = sym then v :: t else h :: dictSet t sym v

/-- `del self.stock_positions[symbol]` on the dict model. -/
def dictDel : List StockPosition → String → List StockPosition
  | [], _ => []
  | h :: t, sym => if h.symbol = sym then t else h :: dictDel t sym

/-- The `ValueError`s raised by `Portfolio`, named after the specification's
error taxonomy: `remove_cash` raises `insufficientCash`, `sell_put` raises
`insufficientCollateral`, `sell_call` raises `insufficientCoverage`, and
`list.remove` on a missing element raises `positionNotFound`. -/
inductive PortfolioError where
  | insufficientCash
  | insufficientCollateral
  | insufficientCoverage
  | positionNotFound
deriving DecidableEq

/-- Result of a portfolio operation: normal return, or a raised exception
together with the (already partially mutated) portfolio state at raise time. -/
inductive OpResult where
  | ok : Portfolio → OpResult
  | err : PortfolioError → Portfolio → OpResult
deriving DecidableEq

/-- The portfolio state after an operation, whether or not it raised. -/
def OpResult.portfolio : OpResult → Portfolio
  | .ok p => p
  | .err _ p => p

/-- `Portfolio.add_cash`. -/
def Portfolio.add_cash (p : Portfolio) (amount : ℚ) (description : String) : Portfolio :=
  { p with
    cash := p.cash + amount
    transaction_history :=
      p.transaction_history ++ [{ txn_type := "cash_in", amount := amount,
                                  description := description }] }

/-- `Portfolio.remove_cash`: raises if `amount > self.cash`. -/
def Portfolio.remove_cash (p : Portfolio) (amount : ℚ) (description : String) : OpResult :=
  if p.cash < amount then .err .insufficientCash p
  else .ok { p with
             cash := p.cash - amount
             transaction_history :=
               p.transaction_history ++ [{ txn_type := "cash_out", amount := amount,
                                           description := description }] }

/-- `Portfolio.sell_put`: requires `strike * contracts * 100` of available cash,
then credits the premium and appends the position to the open list. -/
def Portfolio.sell_put (p : Portfolio) (position : OptionsPosition) : OpResult :=
  let required_cash := position.strike * position.contracts * 100
  if p.cash < required_cash then .err .insufficientCollateral p
  else
    let p1 := p.add_cash position.total_premium "Premium from selling puts"
    .ok { p1 with options_positions := p1.options_positions ++ [position] }

/-- `Portfolio.sell_call`: requires an existing holding with at least
`contracts * 100` shares. -/
def Portfolio.sell_call (p : Portfolio) (position : OptionsPosition) : OpResult :=
  match dictGet p.stock_positions position.symbol with
  | none => .err .insufficientCoverage p
  | some stock_pos =>
    if stock_pos.shares < position.contracts * 100 then .err .insufficientCoverage p
    else
      let p1 := p.add_cash position.total_premium "Premium from selling calls"
      .ok { p1 with options_positions := p1.options_positions ++ [position] }

/-- `Portfolio.assign_put`: debit the strike notional, install the assigned
stock position (dict assignment: creates or replaces), mark the contract
`ASSIGNED`, append it to closed positions and remove it from open positions.
Python mutates the position object in place and then calls
`options_positions.remove(position)`; in the value model this is erasing the
first occurrence of the pre-call value from the open list. -/
def Portfolio.assign_put (p : Portfolio) (position : OptionsPosition)
    (stock_price : ℚ) (current_date : ℤ) : OpResult :=
  let cost := position.strike * position.contracts * 100
  let shares := position.contracts * 100
  match p.remove_cash cost "Put assigned" with
  | .err e p1 => .err e p1
  | .ok p1 =>
    let stock_pos : StockPosition :=
      { symbol := position.symbol
        shares := shares
        cost_basis := position.strike
        acquisition_date := current_date
        assigned_from_put := true }
    let p2 := { p1 with stock_positions := dictSet p1.stock_positions position.symbol stock_pos }
    let position1 := { position with
                       status := .ASSIGNED
                       exit_date := some current_date
                       stock_price_at_exit := stock_price }
    let p3 := { p2 with closed_positions := p2.closed_positions ++ [position1] }
    if position ∈ p3.options_positions then
      .ok { p3 with options_positions := p3.options_positions.erase position }
    else .err .positionNotFound p3

/-- `Portfolio.assign_call`: reduce or delete the holding (delete exactly when
`shares == contracts * 100`, decrement otherwise, no check when the holding is
absent), credit the strike notional, mark the contract `CALLED_AWAY` and move
it from open to closed. -/
def Portfolio.assign_call (p : Portfolio) (position : OptionsPosition)
    (stock_price : ℚ) (current_date : ℤ) : OpResult :=
  let proceeds := position.strike * position.contracts * 100
  let shares := position.contracts * 100
  let stock_positions1 :=
    match dictGet p.stock_positions position.symbol with
    | none => p.stock_positions
    | some stock_pos =>
      if stock_pos.shares = shares then dictDel p.stock_positions position.symbol
      else dictSet p.stock_positions position.symbol
             { stock_pos with shares := stock_pos.shares - shares }
  let p1 := { p with stock_positions := stock_positions1 }
  let p2 := p1.add_cash proceeds "Call assigned"
  let position1 := { position with
                     status := .CALLED_AWAY
                     exit_date := some current_date
                     stock_price_at_exit := stock_price }
  let p3 := { p2 with closed_positions := p2.closed_positions ++ [position1] }
  if position ∈ p3.options_positions then
    .ok { p3 with options_positions := p3.options_positions.erase position }
  else .err .positionNotFound p3

/-- `Portfolio.expire_worthless`: mark the contract, move it from open to
closed; no cash movement. -/
def Portfolio.expire_worthless (p : Portfolio) (position : OptionsPosition)
    (current_date : ℤ) : OpResult :=
  let position1 := { position with
                     status := .EXPIRED_WORTHLESS
                     exit_date := some current_date }
  let p1 := { p with closed_positions := p.closed_positions ++ [position1] }
  if position ∈ p1.options_positions then
    .ok { p1 with options_positions := p1.options_positions.erase position }
  else .err .positionNotFound p1

/-- `Portfolio.get_total_value` (`current_prices.get(symbol, 0)` becomes a total
price function). -/
def Portfolio.get_total_value (p : Portfolio) (current_prices : String → ℚ) : ℚ :=
  p.cash + (p.stock_positions.map (fun sp => sp.current_value (current_prices sp.symbol))).sum

/-- `Portfolio.get_total_premium_collected`. -/
def Portfolio.get_total_premium_collected (p : Portfolio) : ℚ :=
  (p.options_positions.map OptionsPosition.total_premium).sum +
    (p.closed_positions.map OptionsPosition.total_premium).sum

/-! ### Sequences of portfolio operations -/

/-- One call to a state-changing `Portfolio` method. -/
inductive PortfolioOp where
  | sellPut (position : OptionsPosition)
  | sellCall (position : OptionsPosition)
  | assignPut (position : OptionsPosition) (stock_price : ℚ) (current_date : ℤ)
  | assignCall (position : OptionsPosition) (stock_price : ℚ) (current_date : ℤ)
  | expireWorthless (position : OptionsPosition) (current_date : ℤ)

/-- The contract an operation acts on. -/
def PortfolioOp.position : PortfolioOp → OptionsPosition
  | .sellPut c => c
  | .sellCall c => c
  | .assignPut c _ _ => c
  | .assignCall c _ _ => c
  | .expireWorthless c _ => c

/-- Dispatch one operation to the corresponding `Portfolio` method. -/
def Portfolio.applyOp (p : Portfolio) : PortfolioOp → OpResult
  | .sellPut c => p.sell_put c
  | .sellCall c => p.sell_call c
  | .assignPut c price d => p.assign_put c price d
  | .assignCall c price d => p.assign_call c price d
  | .expireWorthless c d => p.expire_worthless c d

/-- Run a sequence of operations, keeping the portfolio state an operation
leaves behind whether it returns or raises (the caller catches `ValueError`
and continues, as `WheelSimulator.sell_put_option` does). -/
def Portfolio.applyOps (p : Portfolio) (ops : List PortfolioOp) : Portfolio :=
  ops.foldl (fun q op => (q.applyOp op).portfolio) p

/-- Well-formedness of a contract per the data-model invariant (strike is a
positive decimal, contract count is at least one) together with nonnegativity
of the premium, which holds for every contract the engine constructs because
`BlackScholes.call_price` / `put_price` floor the premium at 0. -/
def ValidContract (c : OptionsPosition) : Prop :=
  0 < c.strike ∧ 1 ≤ c.contracts ∧ 0 ≤ c.premium_received

/-- Every operation's stated precondition holds at its call site, i.e. every
operation in the sequence returns normally from the state it is called in. -/
def PrecondsHold : Portfolio → List PortfolioOp → Prop
  | _, [] => True
  | p, op :: rest =>
    (∃ q, p.applyOp op = .ok q) ∧ PrecondsHold (p.applyOp op).portfolio rest

/-! ### Simulation engine (`simulator.py`)

The market-data provider is out of scope; `WheelSimulator` methods that consult
it take a price oracle `priceAt : String → ℤ → ℚ` standing for
`DataFetcher.get_price_at_date`. -/

/-- One structured expiration event appended by `_process_expirations`. -/
inductive ExpEvent where
  | putAssigned (symbol : String) (strike : ℚ) (shares : ℤ)
      (total_cost : ℚ) (stock_price : ℚ)
  | callAssigned (symbol : String) (strike : ℚ) (shares : ℤ)
      (total_proceeds : ℚ) (stock_price : ℚ)
  | expiredWorthless (symbol : String) (strike : ℚ) (option_type : OptionType)
      (premium_kept : ℚ) (stock_price : ℚ)
deriving DecidableEq

/-- `WheelSimulator` clock-and-portfolio state. -/
structure WheelSimulator where
  portfolio : Portfolio
  current_date : ℤ
  trading_dates : List ℤ
  current_date_index : ℤ
deriving DecidableEq

/-- Result of `_process_expirations`: the events collected so far plus either a
normal return or a propagating exception with the mutated portfolio. -/
inductive ProcResult where
  | ok : Portfolio → List ExpEvent → ProcResult
  | err : PortfolioError → Portfolio → ProcResult
deriving DecidableEq

/-- The loop body of `WheelSimulator._process_expirations`, iterating over a
snapshot (`list(...)`) of the open positions.  A put expiring with
`stock_price < strike` is assigned, a call with `stock_price > strike` is
assigned, everything else expires worthless; equality is out of the money for
both sides.  A `ValueError` from `assign_put` (or from a `remove` on a missing
position) propagates, discarding the local event list. -/
def processExpirationsAux (priceAt : String → ℤ → ℚ) (current_date : ℤ) :
    Portfolio → List OptionsPosition → List ExpEvent → ProcResult
  | p, [], events => .ok p events
  | p, position :: rest, events =>
    if position.is_expired current_date then
      let stock_price := priceAt position.symbol current_date
      match position.option_type with
      | .put =>
        if stock_price < position.strike then
          match p.assign_put position stock_price current_date with
          | .ok p1 =>
            processExpirationsAux priceAt current_date p1 rest
              (events ++ [.putAssigned position.symbol position.strike
                (position.contracts * 100) (position.strike * position.contracts * 100)
                stock_price])
          | .err e p1 => .err e p1
        else
          match p.expire_worthless position current_date with
          | .ok p1 =>
            processExpirationsAux priceAt current_date p1 rest
              (events ++ [.expiredWorthless position.symbol position.strike .put
                position.total_premium stock_price])
          | .err e p1 => .err e p1
      | .call =>
        if position.strike < stock_price then
          match p.assign_call position stock_price current_date with
          | .ok p1 =>
            processExpirationsAux priceAt current_date p1 rest
              (events ++ [.callAssigned position.symbol position.strike
                (position.contracts * 100) (position.strike * position.contracts * 100)
                stock_price])
          | .err e p1 => .err e p1
        else
          match p.expire_worthless position current_date with
          | .ok p1 =>
            processExpirationsAux priceAt current_date p1 rest
              (events ++ [.expiredWorthless position.symbol position.strike .call
                position.total_premium stock_price])
          | .err e p1 => .err e p1
    else processExpirationsAux priceAt current_date p rest events

/-- `WheelSimulator._process_expirations`. -/
def WheelSimulator.process_expirations (s : WheelSimulator)
    (priceAt : String → ℤ → ℚ) : ProcResult :=
  processExpirationsAux priceAt s.current_date s.portfolio s.portfolio.options_positions []

/-- Result of `advance_day`: the `(success, expired_events)` pair and the new
state, or a propagated exception. -/
inductive SimResult where
  | ok : Bool × List ExpEvent → WheelSimulator → SimResult
  | err : PortfolioError → WheelSimulator → SimResult
deriving DecidableEq

/-- `WheelSimulator.advance_day`: step the index; past the last trading date,
clamp the index to `len - 1` and return `(False, [])` without touching the
current date or the portfolio; otherwise move the current date to the indexed
trading date and process expirations there.  (Python would interpret a
negative resulting index by wrapping; the model only looks the date up for the
in-range indices the claims quantify over.) -/
def WheelSimulator.advance_day (s : WheelSimulator) (priceAt : String → ℤ → ℚ)
    (days : ℤ) : SimResult :=
  let idx1 := s.current_date_index + days
  if (s.trading_dates.length : ℤ) ≤ idx1 then
    .ok (false, []) { s with current_date_index := (s.trading_dates.length : ℤ) - 1 }
  else
    let s1 := { s with
                current_date_index := idx1
                current_date := s.trading_dates.getD idx1.toNat 0 }
    match s1.process_expirations priceAt with
    | .ok p events => .ok (true, events) { s1 with portfolio := p }
    | .err e p => .err e { s1 with portfolio := p }

/-! ### Black-Scholes pricing model (`black_scholes.py`)

The pricing functions are idealised over `ℝ`: `scipy.stats.norm.cdf` becomes
the exact standard normal cumulative distribution function `normCdf`, and
`np.log`, `np.exp`, `np.sqrt` become their real counterparts. -/

open MeasureTheory in
/-- Standard normal probability density. -/
noncomputable def normPdf (x : ℝ) : ℝ :=
  Real.exp (-(x ^ 2) / 2) / Real.sqrt (2 * Real.pi)

open MeasureTheory in
/-- Standard normal cumulative distribution function (`scipy.stats.norm.cdf`). -/
noncomputable def normCdf (x : ℝ) : ℝ := ∫ t in Set.Iic x, normPdf t

namespace BlackScholes

/-- `BlackScholes.calculate_d1`. -/
noncomputable def calculate_d1 (S K T r sigma : ℝ) : ℝ :=
  (Real.log (S / K) + (r + sigma ^ 2 / 2) * T) / (sigma * Real.sqrt T)

/-- `BlackScholes.calculate_d2`. -/
noncomputable def calculate_d2 (d1 sigma T : ℝ) : ℝ := d1 - sigma * Real.sqrt T

/-- `BlackScholes.call_price`. -/
noncomputable def call_price (S K T r sigma : ℝ) : ℝ :=
  if T ≤ 0 then max (S - K) 0
  else
    let d1 := calculate_d1 S K T r sigma
    let d2 := calculate_d2 d1 sigma T
    max (S * normCdf d1 - K * Real.exp (-r * T) * normCdf d2) 0

/-- `BlackScholes.put_price`. -/
noncomputable def put_price (S K T r sigma : ℝ) : ℝ :=
  if T ≤ 0 then max (K - S) 0
  else
    let d1 := calculate_d1 S K T r sigma
    let d2 := calculate_d2 d1 sigma T
    max (K * Real.exp (-r * T) * normCdf (-d2) - S * normCdf (-d1)) 0

/-- `BlackScholes.option_price`. -/
noncomputable def option_price (S K T r sigma : ℝ) (option_type : OptionType) : ℝ :=
  match option_type with
  | .call => call_price S K T r sigma
  | .put => put_price S K T r sigma

end BlackScholes

/-! ### Strike ladder generator (`generate_strike_prices`)

The observable output of `generate_strike_prices` depends on IEEE-754 binary64
arithmetic (e.g. whether `100 * (1 - 0.025)` lands exactly on `97.5`), so this
part is embedded bit-exactly: every `float` is represented by its exact value
times `2 ^ 70` as an integer (all values involved are dyadic rationals of at
least that granularity), `fAdd` / `fMul` perform the exact operation followed
by IEEE round-to-nearest-even to 53 significant bits, and `pyRound` is
Python's `round` (nearest integer, ties to even). -/

/-- Number of binary digits of a natural number (fuel-based so that the kernel
can evaluate it; the fuel of 300 covers all magnitudes that occur). -/
def bitLenAux : ℕ → ℕ → ℕ
  | 0, _ => 0
  | fuel + 1, n => if n = 0 then 0 else bitLenAux fuel (n / 2) + 1

/-- Number of binary digits of a natural number. -/
def bitLen (n : ℕ) : ℕ := bitLenAux 300 n

/-- Round `a / 2 ^ s` to the nearest natural number, ties to even. -/
def roundShiftEven (a : ℕ) (s : ℕ) : ℕ :=
  if s = 0 then a
  else
    let q := a / 2 ^ s
    let r := a % 2 ^ s
    let h := 2 ^ (s - 1)
    if r < h then q else if h < r then q + 1 else if q % 2 = 0 then q else q + 1

/-- Round the value `n / 2 ^ (70 + extra)` to the nearest IEEE-754 binary64
value (round-to-nearest, ties-to-even, on 53 significant bits), returned
scaled by `2 ^ 70`.  Exact for every magnitude occurring in the strike
computation (no subnormals, no overflow). -/
def dblNorm (n : ℤ) (extra : ℕ) : ℤ :=
  if n = 0 then 0
  else
    let a := n.natAbs
    let drop := bitLen a - 53
    let rounded := roundShiftEven a drop
    let sgn : ℤ := if n < 0 then -1 else 1
    if extra ≤ drop then sgn * (rounded : ℤ) * 2 ^ (drop - extra)
    else sgn * ((rounded : ℤ) / 2 ^ (extra - drop))

/-- binary64 addition of two scaled values. -/
def fAdd (x y : ℤ) : ℤ := dblNorm (x + y) 0

/-- binary64 multiplication of two scaled values. -/
def fMul (x y : ℤ) : ℤ := dblNorm (x * y) 70

/-- The (exactly representable) float value of a small integer, scaled. -/
def dbl (k : ℤ) : ℤ := k * 2 ^ 70

/-- Floor of the base-2 logarithm of the positive rational `p / q`. -/
def floorLog2Rat (p q : ℤ) : ℤ :=
  let lp := bitLen p.natAbs
  let lq := bitLen q.natAbs
  if q * 2 ^ lp ≤ p * 2 ^ lq then (lp : ℤ) - lq else (lp : ℤ) - lq - 1

/-- The IEEE-754 binary64 value nearest to the positive rational `p / q`
(scaled by `2 ^ 70`): this is how a decimal literal such as `0.025` parses. -/
def ratToDouble (p q : ℤ) : ℤ :=
  let e := floorLog2Rat p q
  let pn := if 0 ≤ 52 - e then p * 2 ^ (52 - e).toNat else p
  let qn := if 0 ≤ 52 - e then q else q * 2 ^ (e - 52).toNat
  let m := pn / qn
  let r := pn % qn
  let m1 := if 2 * r < qn then m else if qn < 2 * r then m + 1
            else if m % 2 = 0 then m else m + 1
  if 0 ≤ e + 18 then m1 * 2 ^ (e + 18).toNat else m1 / 2 ^ (-(e + 18)).toNat

/-- The binary64 value of the literal `0.025`, the default `spacing_pct`. -/
def lit_0_025 : ℤ := ratToDouble 1 40

/-- Python's `round` on a float (scaled value): nearest integer, ties to even. -/
def pyRound (x : ℤ) : ℤ :=
  let a := roundShiftEven x.natAbs 70
  if x < 0 then -(a : ℤ) else (a : ℤ)

/-- Python's `range(lo, hi)` over integers. -/
def rangeZ (lo hi : ℤ) : List ℤ :=
  (List.range (hi - lo).toNat).map (fun j => lo + Int.ofNat j)

/-- The loop body of `generate_strike_prices`: the candidate
`stock_price * (1 + i * spacing_pct)` in float arithmetic, then
`round(strike * 2) / 2` below 50 and `round(strike)` at or above 50. -/
def strikeCandidate (stock_price spacing_pct : ℤ) (i : ℤ) : ℤ :=
  let strike := fMul stock_price (fAdd (dbl 1) (fMul (dbl i) spacing_pct))
  if strike < dbl 50 then pyRound (fMul strike (dbl 2)) * 2 ^ 69
  else pyRound strike * 2 ^ 70

/-- Insert into an ascending duplicate-free list, skipping duplicates. -/
def insertUnique (x : ℤ) : List ℤ → List ℤ
  | [] => [x]
  | y :: t => if x < y then x :: y :: t else if x = y then y :: t else y :: insertUnique x t

/-- Python's `sorted(set(l))`: the distinct values of `l` in ascending order. -/
def sortedDedup (l : List ℤ) : List ℤ := l.foldr insertUnique []

/-- `generate_strike_prices(stock_price, num_strikes, spacing_pct)`:
`2 * num_strikes + 1` candidates for `i` in `range(-num_strikes,
num_strikes + 1)`, rounded per side of 50, deduplicated and sorted. -/
def generate_strike_prices (stock_price num_strikes spacing_pct : ℤ) : List ℤ :=
  sortedDedup ((rangeZ (-num_strikes) (num_strikes + 1)).map
    (strikeCandidate stock_price spacing_pct))

/-! ### Definitions used to state invariants and concrete witnesses -/

/-- The holdings dict maps each symbol to at most one `StockPosition`. -/
def symbolsNodup (p : Portfolio) : Prop :=
  (p.stock_positions.map StockPosition.symbol).Nodup

/-- Concrete cash-secured put contract: strike 50, one contract, premium 1
per share. -/
def exPut50 : OptionsPosition :=
  { symbol := "AAPL"
    option_type := .put
    strike := 50
    expiration := 30
    premium_received := 1
    contracts := 1
    entry_date := 0
    stock_price_at_entry := 52 }

/-- Concrete covered-call contract: strike 50, one contract. -/
def exCall50 : OptionsPosition :=
  { symbol := "AAPL"
    option_type := .call
    strike := 50
    expiration := 30
    premium_received := 1
    contracts := 1
    entry_date := 0
    stock_price_at_entry := 48 }

/-- A portfolio with 5000 of cash and `exPut50` open. -/
def exPortfolioPut : Portfolio :=
  { initial_capital := 5000
    cash := 5000
    stock_positions := []
    options_positions := [exPut50]
    closed_positions := []
    transaction_history := [] }

/-- A 40-share AAPL holding (less than one contract's worth). -/
def exHolding40 : StockPosition :=
  { symbol := "AAPL"
    shares := 40
    cost_basis := 45
    acquisition_date := 0
    assigned_from_put := false }

/-- A portfolio holding only 40 AAPL shares with `exCall50` open (an
uncovered call: fewer than 100 shares). -/
def exPortfolioCall : Portfolio :=
  { initial_capital := 5000
    cash := 1000
    stock_positions := [exHolding40]
    options_positions := [exCall50]
    closed_positions := []
    transaction_history := [] }

/-- The state of `Portfolio.init 100000` after selling `exPut50`. -/
def exAfterSellPut : Portfolio :=
  { initial_capital := 100000
    cash := 100100
    stock_positions := []
    options_positions := [exPut50]
    closed_positions := []
    transaction_history := [{ txn_type := "cash_in", amount := 100,
                              description := "Premium from selling puts" }] }

/-- The state of `exPortfolioPut` after `assign_put exPut50 45 30`. -/
def exAfterAssignPut : Portfolio :=
  { initial_capital := 5000
    cash := 0
    stock_positions := [{ symbol := "AAPL", shares := 100, cost_basis := 50,
                          acquisition_date := 30, assigned_from_put := true }]
    options_positions := []
    closed_positions :=
      [{ exPut50 with status := .ASSIGNED, exit_date := some 30, stock_price_at_exit := 45 }]
    transaction_history := [{ txn_type := "cash_out", amount := 5000,
                              description := "Put assigned" }] }

/-- A three-day clock fixture sitting on its first trading date. -/
def exSim : WheelSimulator :=
  { portfolio := Portfolio.init 1000
    current_date := 10
    trading_dates := [10, 11, 12]
    current_date_index := 0 }

/-- A price oracle for witnesses: every symbol closes at 45 every day. -/
def exPriceAt : String → ℤ → ℚ := fun _ _ => 45

/-! ## Helper lemmas: the standard normal distribution -/

section Gaussian

open MeasureTheory Set

theorem normPdf_pos (x : ℝ) : 0 < normPdf x := by
  apply div_pos (Real.exp_pos _)
  apply Real.sqrt_pos.mpr
  positivity

theorem normPdf_neg (x : ℝ) : normPdf (-x) = normPdf x := by
  simp [normPdf, neg_sq]

theorem normPdf_eq (x : ℝ) :
    normPdf x = Real.exp (-(1/2) * x ^ 2) / Real.sqrt (2 * Real.pi) := by
  have h : -(x ^ 2) / 2 = -(1/2) * x ^ 2 := by ring
  rw [normPdf, h]

theorem integrable_normPdf : Integrable normPdf := by
  have h : Integrable (fun x : ℝ => Real.exp (-(1/2) * x ^ 2)) :=
    integrable_exp_neg_mul_sq (by norm_num)
  have h2 := h.div_const (Real.sqrt (2 * Real.pi))
  apply h2.congr
  filter_upwards with x
  rw [normPdf_eq]

theorem integral_normPdf : ∫ x : ℝ, normPdf x = 1 := by
  have h : ∫ x : ℝ, normPdf x
      = (∫ x : ℝ, Real.exp (-(1/2) * x ^ 2)) / Real.sqrt (2 * Real.pi) := by
    rw [← integral_div]
    congr 1
    funext x
    rw [normPdf_eq]
  rw [h, integral_gaussian]
  have h2 : (Real.pi / (1/2)) = 2 * Real.pi := by ring
  rw [h2]
  apply div_self
  positivity

theorem normCdf_nonneg (x : ℝ) : 0 ≤ normCdf x :=
  setIntegral_nonneg measurableSet_Iic (fun t _ => (normPdf_pos t).le)

/-- The reflection identity `Φ x + Φ (-x) = 1`. -/
theorem normCdf_add_neg (x : ℝ) : normCdf x + normCdf (-x) = 1 := by
  have h1 : normCdf (-x) = ∫ t in Ioi x, normPdf t := by
    rw [normCdf]
    have h : (∫ t in Iic (-x), normPdf t) = ∫ t in Iic (-x), normPdf (-t) := by
      apply setIntegral_congr_fun measurableSet_Iic
      intro t _
      show normPdf t = normPdf (-t)
      rw [normPdf_neg]
    rw [h, integral_comp_neg_Iic, neg_neg]
  rw [h1, normCdf]
  rw [intervalIntegral.integral_Iic_add_Ioi integrable_normPdf.integrableOn
    integrable_normPdf.integrableOn]
  exact integral_normPdf

/-- Translation invariance of the truncated Gaussian integral. -/
theorem normCdf_shift (x s : ℝ) :
    (∫ u in Iic x, normPdf (u + s)) = normCdf (x + s) := by
  have hmp : MeasurePreserving (fun u : ℝ => u + s) volume volume :=
    measurePreserving_add_right volume s
  have hemb : MeasurableEmbedding (fun u : ℝ => u + s) :=
    (MeasurableEquiv.addRight s).measurableEmbedding
  have hpre : Set.preimage (fun u : ℝ => u + s) (Iic (x + s)) = Iic x := by
    ext u
    simp
  have h := hmp.setIntegral_preimage_emb hemb normPdf (Iic (x + s))
  rw [hpre] at h
  rw [h, normCdf]

theorem normPdf_mul (a b : ℝ) :
    normPdf a * normPdf b = Real.exp (-(a ^ 2 + b ^ 2) / 2) / (2 * Real.pi) := by
  rw [normPdf, normPdf, div_mul_div_comm, ← Real.exp_add,
    Real.mul_self_sqrt (by positivity : (0:ℝ) ≤ 2 * Real.pi)]
  have h : -(a ^ 2) / 2 + -(b ^ 2) / 2 = -(a ^ 2 + b ^ 2) / 2 := by ring
  rw [h]

theorem integrable_normPdf_shift (s : ℝ) :
    Integrable (fun u : ℝ => normPdf (u + s)) := by
  have hmp : MeasurePreserving (fun u : ℝ => u + s) volume volume :=
    measurePreserving_add_right volume s
  have hemb : MeasurableEmbedding (fun u : ℝ => u + s) :=
    (MeasurableEquiv.addRight s).measurableEmbedding
  exact hemb.integrable_map_iff.mp (by rw [hmp.map_eq]; exact integrable_normPdf)

/-- Log-concavity-style cross inequality for the normal distribution:
`φ(x+s)·Φ(x) ≤ φ(x)·Φ(x+s)` for `s ≥ 0`. -/
theorem cdf_pdf_cross (x s : ℝ) (hs : 0 ≤ s) :
    normPdf (x + s) * normCdf x ≤ normPdf x * normCdf (x + s) := by
  rw [← normCdf_shift x s, normCdf]
  rw [← integral_mul_left, ← integral_mul_left]
  apply setIntegral_mono_on
  · exact (integrable_normPdf.const_mul _).integrableOn
  · exact ((integrable_normPdf_shift s).const_mul _).integrableOn
  · exact measurableSet_Iic
  · intro u hu
    rw [Set.mem_Iic] at hu
    rw [normPdf_mul, normPdf_mul]
    apply (div_le_div_iff_of_pos_right (by positivity)).mpr
    apply Real.exp_le_exp.mpr
    nlinarith [mul_nonneg (sub_nonneg.mpr hu) hs]

end Gaussian

/-! ## Claims C4 and C5: the pricing model -/

/-- Claim C4: for every spot `S`, strike `K`, rate `r` and volatility `sigma`,
pricing with time to expiry `T ≤ 0` returns exactly the intrinsic value,
`max (S - K) 0` for a call and `max (K - S) 0` for a put; since `r` and
`sigma` are universally quantified and the right-hand sides do not mention
them (nor `T`), no input other than the side, `S` and `K` influences the
result. -/
theorem C4_price_at_expiry_is_intrinsic (S K T r sigma : ℝ) (hT : T ≤ 0) :
    BlackScholes.call_price S K T r sigma = max (S - K) 0 ∧
    BlackScholes.put_price S K T r sigma = max (K - S) 0 := by
  constructor
  · rw [BlackScholes.call_price, if_pos hT]
  · rw [BlackScholes.put_price, if_pos hT]

/-- Witness for C4 at `S = 180`, `K = 100`, `T = 0`, `r = 5`, `sigma = 3`. -/
theorem C4_price_at_expiry_is_intrinsic_witness :
    (0:ℝ) ≤ 0 ∧
      (BlackScholes.call_price 180 100 0 5 3 = max (180 - 100) 0 ∧
        BlackScholes.put_price 180 100 0 5 3 = max (100 - 180) 0) :=
  ⟨le_refl 0, C4_price_at_expiry_is_intrinsic 180 100 0 5 3 (le_refl 0)⟩

/-- Claim C5: for every valid input with `S > 0`, `K > 0`, `sigma > 0` and
`T > 0`, the call price minus the put price equals `S - K·exp(-r·T)`
(put-call parity) -- in the exact real-number model the identity is exact, in
particular within any numeric tolerance.  The proof shows the `max _ 0`
floors in `call_price` and `put_price` never bind for positive inputs. -/
theorem C5_put_call_parity (S K T r sigma : ℝ) (hS : 0 < S) (hK : 0 < K)
    (hsig : 0 < sigma) (hT : 0 < T) :
    BlackScholes.call_price S K T r sigma - BlackScholes.put_price S K T r sigma
      = S - K * Real.exp (-r * T) := by
  have hTn : ¬ T ≤ 0 := not_le.mpr hT
  set sq := sigma * Real.sqrt T with hsq
  have hsqpos : 0 < sq := mul_pos hsig (Real.sqrt_pos.mpr hT)
  set d1 := BlackScholes.calculate_d1 S K T r sigma with hd1
  set d2 := BlackScholes.calculate_d2 d1 sigma T with hd2
  have hd21 : d2 = d1 - sq := by rw [hd2, BlackScholes.calculate_d2]
  set m := Real.log (S / K) + r * T with hm
  have hd1sq : d1 * sq = Real.log (S / K) + (r + sigma ^ 2 / 2) * T := by
    rw [hd1, BlackScholes.calculate_d1, ← hsq, div_mul_cancel₀ _ (ne_of_gt hsqpos)]
  have hsq2 : sq ^ 2 = sigma ^ 2 * T := by
    rw [hsq, mul_pow, Real.sq_sqrt hT.le]
  have hpdf : normPdf d1 * Real.exp m = normPdf d2 := by
    rw [normPdf, normPdf, div_mul_eq_mul_div, ← Real.exp_add]
    congr 2
    have h : d2 ^ 2 = d1 ^ 2 - 2 * (d1 * sq) + sq ^ 2 := by rw [hd21]; ring
    rw [h, hd1sq, hsq2, hm]
    ring
  have hKS : K * Real.exp (-r * T) * Real.exp m = S := by
    rw [hm, Real.exp_add, Real.exp_log (div_pos hS hK)]
    have hee : Real.exp (-r * T) * Real.exp (r * T) = 1 := by
      rw [← Real.exp_add]
      norm_num
    calc K * Real.exp (-r * T) * (S / K * Real.exp (r * T))
        = S / K * K * (Real.exp (-r * T) * Real.exp (r * T)) := by ring
      _ = S := by rw [hee, div_mul_cancel₀ _ (ne_of_gt hK), mul_one]
  have hgen : normPdf (d2 + sq) * normCdf d2 ≤ normPdf d2 * normCdf (d2 + sq) :=
    cdf_pdf_cross d2 sq hsqpos.le
  have hd12 : d2 + sq = d1 := by rw [hd21]; ring
  rw [hd12] at hgen
  have hcall0 : 0 ≤ S * normCdf d1 - K * Real.exp (-r * T) * normCdf d2 := by
    have h1 : normPdf d1 * normCdf d2 ≤ normPdf d1 * (Real.exp m * normCdf d1) := by
      calc normPdf d1 * normCdf d2 ≤ normPdf d2 * normCdf d1 := hgen
        _ = normPdf d1 * (Real.exp m * normCdf d1) := by rw [← hpdf]; ring
    have h2 : normCdf d2 ≤ Real.exp m * normCdf d1 :=
      le_of_mul_le_mul_left h1 (normPdf_pos d1)
    have h3 : K * Real.exp (-r * T) * normCdf d2
        ≤ K * Real.exp (-r * T) * (Real.exp m * normCdf d1) := by
      apply mul_le_mul_of_nonneg_left h2
      positivity
    have h4 : K * Real.exp (-r * T) * (Real.exp m * normCdf d1) = S * normCdf d1 := by
      rw [← hKS]; ring
    linarith
  have hgen2 : normPdf (-d1 + sq) * normCdf (-d1) ≤ normPdf (-d1) * normCdf (-d1 + sq) :=
    cdf_pdf_cross (-d1) sq hsqpos.le
  have hnd : -d1 + sq = -d2 := by rw [hd21]; ring
  rw [hnd, normPdf_neg, normPdf_neg] at hgen2
  have hput0 : 0 ≤ K * Real.exp (-r * T) * normCdf (-d2) - S * normCdf (-d1) := by
    have h1 : Real.exp m * normCdf (-d1) ≤ normCdf (-d2) := by
      have h0 : normPdf d1 * (Real.exp m * normCdf (-d1)) ≤ normPdf d1 * normCdf (-d2) := by
        calc normPdf d1 * (Real.exp m * normCdf (-d1))
            = normPdf d2 * normCdf (-d1) := by rw [← hpdf]; ring
          _ ≤ normPdf d1 * normCdf (-d2) := hgen2
      exact le_of_mul_le_mul_left h0 (normPdf_pos d1)
    have h3 : K * Real.exp (-r * T) * (Real.exp m * normCdf (-d1))
        ≤ K * Real.exp (-r * T) * normCdf (-d2) := by
      apply mul_le_mul_of_nonneg_left h1
      positivity
    have h4 : K * Real.exp (-r * T) * (Real.exp m * normCdf (-d1)) = S * normCdf (-d1) := by
      rw [← hKS]; ring
    linarith
  simp only [BlackScholes.call_price, BlackScholes.put_price]
  rw [if_neg hTn, if_neg hTn]
  rw [← hd1, ← hd2]
  rw [max_eq_left hcall0, max_eq_left hput0]
  have e1 := normCdf_add_neg d1
  have e2 := normCdf_add_neg d2
  linear_combination S * e1 - K * Real.exp (-r * T) * e2

/-- Witness for C5 at `S = 100`, `K = 90`, `T = 1`, `r = 1/20`, `sigma = 1/2`. -/
theorem C5_put_call_parity_witness :
    (0:ℝ) < 100 ∧ (0:ℝ) < 90 ∧ (0:ℝ) < 1/2 ∧ (0:ℝ) < 1 ∧
      BlackScholes.call_price 100 90 1 (1/20) (1/2)
          - BlackScholes.put_price 100 90 1 (1/20) (1/2)
        = 100 - 90 * Real.exp (-(1/20) * 1) :=
  ⟨by norm_num, by norm_num, by norm_num, by norm_num,
    C5_put_call_parity 100 90 1 (1/20) (1/2) (by norm_num) (by norm_num)
      (by norm_num) (by norm_num)⟩

/-! ## Claim C2: a rejected put sale mutates nothing -/

/-- Claim C2: for every portfolio state with
`cash < strike * contracts * 100`, `sell_put` fails with the
`InsufficientCollateral` error and leaves the cash balance, the open and
closed position sequences, the stock holdings and the transaction log all
unchanged (the check precedes every mutation). -/
theorem C2_sell_put_rejected_no_mutation (p : Portfolio) (c : OptionsPosition)
    (h : p.cash < c.strike * c.contracts * 100) :
    p.sell_put c = .err .insufficientCollateral p ∧
      (p.sell_put c).portfolio.cash = p.cash ∧
      (p.sell_put c).portfolio.options_positions = p.options_positions ∧
      (p.sell_put c).portfolio.closed_positions = p.closed_positions ∧
      (p.sell_put c).portfolio.stock_positions = p.stock_positions ∧
      (p.sell_put c).portfolio.transaction_history = p.transaction_history := by
  have he : p.sell_put c = .err .insufficientCollateral p := by
    simp only [Portfolio.sell_put]
    rw [if_pos h]
  refine ⟨he, ?_, ?_, ?_, ?_, ?_⟩ <;> (rw [he]; rfl)

/-- Witness for C2: cash 1000, strike 50, one contract (needs 5000). -/
theorem C2_sell_put_rejected_no_mutation_witness :
    (Portfolio.init 1000).sell_put exPut50 = .err .insufficientCollateral (Portfolio.init 1000) ∧
      ((Portfolio.init 1000).sell_put exPut50).portfolio.cash = (Portfolio.init 1000).cash ∧
      ((Portfolio.init 1000).sell_put exPut50).portfolio.options_positions
        = (Portfolio.init 1000).options_positions ∧
      ((Portfolio.init 1000).sell_put exPut50).portfolio.closed_positions
        = (Portfolio.init 1000).closed_positions ∧
      ((Portfolio.init 1000).sell_put exPut50).portfolio.stock_positions
        = (Portfolio.init 1000).stock_positions ∧
      ((Portfolio.init 1000).sell_put exPut50).portfolio.transaction_history
        = (Portfolio.init 1000).transaction_history :=
  C2_sell_put_rejected_no_mutation (Portfolio.init 1000) exPut50
    (by norm_num [Portfolio.init, exPut50])

/-! ## Claims C6 and C9: advancing the clock past the last trading date -/

/-- Claim C6: for every clock state and every `n` with
`current index + n ≥ number of trading dates`, `advance_day n` clamps the
index into `[0, len - 1]`, returns `(False, [])` (not advanced, no
expiration events), changes neither the portfolio nor the current date, and
repeated overshooting calls keep returning `(False, [])` with no events. -/
theorem C6_advance_day_past_end_clamps (s : WheelSimulator)
    (priceAt : String → ℤ → ℚ) (n : ℤ)
    (hlen : 1 ≤ s.trading_dates.length)
    (hover : (s.trading_dates.length : ℤ) ≤ s.current_date_index + n) :
    ∃ s1, s.advance_day priceAt n = .ok (false, []) s1 ∧
      s1.current_date_index = (s.trading_dates.length : ℤ) - 1 ∧
      0 ≤ s1.current_date_index ∧
      s1.current_date_index ≤ (s.trading_dates.length : ℤ) - 1 ∧
      s1.current_date = s.current_date ∧
      s1.portfolio = s.portfolio ∧
      s1.trading_dates = s.trading_dates ∧
      ∀ m : ℤ, 1 ≤ m → ∃ s2, s1.advance_day priceAt m = .ok (false, []) s2 := by
  refine ⟨{ s with current_date_index := (s.trading_dates.length : ℤ) - 1 }, ?_, rfl, ?_, ?_,
    rfl, rfl, rfl, ?_⟩
  · rw [WheelSimulator.advance_day]
    rw [if_pos hover]
  · show (0:ℤ) ≤ (s.trading_dates.length : ℤ) - 1
    omega
  · show (s.trading_dates.length : ℤ) - 1 ≤ (s.trading_dates.length : ℤ) - 1
    omega
  · intro m hm
    refine ⟨{ s with current_date_index := (s.trading_dates.length : ℤ) - 1 }, ?_⟩
    rw [WheelSimulator.advance_day]
    rw [if_pos (show (s.trading_dates.length : ℤ) ≤ (s.trading_dates.length : ℤ) - 1 + m by
      omega)]

/-- Witness for C6: three trading dates, index 0, advancing by 5. -/
theorem C6_advance_day_past_end_clamps_witness :
    1 ≤ exSim.trading_dates.length ∧
      (exSim.trading_dates.length : ℤ) ≤ exSim.current_date_index + 5 ∧
      ∃ s1, exSim.advance_day exPriceAt 5 = .ok (false, []) s1 ∧
        s1.current_date_index = (exSim.trading_dates.length : ℤ) - 1 ∧
        0 ≤ s1.current_date_index ∧
        s1.current_date_index ≤ (exSim.trading_dates.length : ℤ) - 1 ∧
        s1.current_date = exSim.current_date ∧
        s1.portfolio = exSim.portfolio ∧
        s1.trading_dates = exSim.trading_dates ∧
        ∀ m : ℤ, 1 ≤ m → ∃ s2, s1.advance_day exPriceAt m = .ok (false, []) s2 :=
  ⟨by norm_num [exSim], by norm_num [exSim],
    C6_advance_day_past_end_clamps exSim exPriceAt 5 (by norm_num [exSim])
      (by norm_num [exSim])⟩

/-- Claim C9: from a clock state below the last index (with the clock
invariant `current_date = trading_dates[current index]` and distinct trading
dates), an overshooting `advance_day` sets the index to `len - 1` but leaves
the current date unchanged and processes no expirations, so afterwards the
current date differs from the trading date stored at the current index. -/
theorem C9_overshoot_leaves_date_stale (s : WheelSimulator)
    (priceAt : String → ℤ → ℚ) (n : ℤ)
    (hidx0 : 0 ≤ s.current_date_index)
    (hidx : s.current_date_index < (s.trading_dates.length : ℤ) - 1)
    (hover : (s.trading_dates.length : ℤ) ≤ s.current_date_index + n)
    (hnodup : s.trading_dates.Nodup)
    (hdate : s.current_date = s.trading_dates.getD s.current_date_index.toNat 0) :
    ∃ s1, s.advance_day priceAt n = .ok (false, []) s1 ∧
      s1.current_date_index = (s.trading_dates.length : ℤ) - 1 ∧
      s1.current_date = s.current_date ∧
      s1.portfolio = s.portfolio ∧
      s1.current_date ≠ s1.trading_dates.getD s1.current_date_index.toNat 0 := by
  refine ⟨{ s with current_date_index := (s.trading_dates.length : ℤ) - 1 }, ?_, rfl, rfl,
    rfl, ?_⟩
  · rw [WheelSimulator.advance_day]
    rw [if_pos hover]
  · show s.current_date ≠ s.trading_dates.getD ((s.trading_dates.length : ℤ) - 1).toNat 0
    have hi : s.current_date_index.toNat < s.trading_dates.length := by omega
    have hj : ((s.trading_dates.length : ℤ) - 1).toNat < s.trading_dates.length := by omega
    rw [hdate, List.getD_eq_getElem?_getD, List.getD_eq_getElem?_getD,
      List.getElem?_eq_getElem hi, List.getElem?_eq_getElem hj, Option.getD_some,
      Option.getD_some]
    intro hcontra
    have h2 := (hnodup.getElem_inj_iff).mp hcontra
    omega

/-! ## Dict-model helper lemmas -/

/-- Looking up the key just assigned returns the assigned value. -/
theorem dictGet_dictSet_self (l : List StockPosition) (sym : String) (v : StockPosition)
    (hv : v.symbol = sym) : dictGet (dictSet l sym v) sym = some v := by
  induction l with
  | nil =>
    simp [dictGet, dictSet, List.find?_cons, hv]
  | cons h t ih =>
    by_cases hh : h.symbol = sym
    · simp [dictGet, dictSet, hh, List.find?_cons, hv]
    · rw [dictSet, if_neg hh]
      rw [dictGet, List.find?_cons]
      have hb : (h.symbol == sym) = false := by
        simp [hh]
      rw [hb]
      exact ih

/-- A successful dict lookup returns an entry bearing the looked-up key. -/
theorem dictGet_symbol (l : List StockPosition) (sym : String) (sp : StockPosition)
    (h : dictGet l sym = some sp) : sp.symbol = sym := by
  have h2 := List.find?_some h
  simpa using h2

/-! ## Claim C3: put assignment -/

/-- Claim C3: for every open put contract and portfolio with
`cash ≥ strike * contracts * 100`, `assign_put` debits cash by exactly
`strike * contracts * 100`, creates or replaces the holding for the symbol
with `shares = contracts * 100`, `cost basis = strike` and the
assigned-from-put provenance flag, marks the contract `ASSIGNED` with exit
date and exit price, removes it from open positions and appends it to closed
positions; when cash is insufficient it fails with `InsufficientCash`. -/
theorem C3_assign_put_effects (p : Portfolio) (c : OptionsPosition) (price : ℚ) (d : ℤ)
    (hmem : c ∈ p.options_positions) :
    (c.strike * c.contracts * 100 ≤ p.cash →
      ∃ q, p.assign_put c price d = .ok q ∧
        q.cash = p.cash - c.strike * c.contracts * 100 ∧
        dictGet q.stock_positions c.symbol = some
          { symbol := c.symbol, shares := c.contracts * 100, cost_basis := c.strike,
            acquisition_date := d, assigned_from_put := true } ∧
        q.closed_positions = p.closed_positions ++
          [{ c with status := .ASSIGNED, exit_date := some d, stock_price_at_exit := price }] ∧
        q.options_positions = p.options_positions.erase c) ∧
    (p.cash < c.strike * c.contracts * 100 →
      p.assign_put c price d = .err .insufficientCash p) := by
  constructor
  · intro hcash
    have hnlt : ¬ p.cash < c.strike * c.contracts * 100 := not_lt.mpr hcash
    simp only [Portfolio.assign_put, Portfolio.remove_cash, if_neg hnlt]
    rw [if_pos hmem]
    refine ⟨_, rfl, rfl, ?_, rfl, rfl⟩
    exact dictGet_dictSet_self _ _ _ rfl
  · intro hcash
    simp only [Portfolio.assign_put, Portfolio.remove_cash, if_pos hcash]

/-- Witness for C3: assigning `exPut50` at spot 45 on day 30 out of
`exPortfolioPut` (cash 5000, exactly the required notional). -/
theorem C3_assign_put_effects_witness :
    exPut50 ∈ exPortfolioPut.options_positions ∧
      (exPut50.strike * exPut50.contracts * 100 ≤ exPortfolioPut.cash →
        ∃ q, exPortfolioPut.assign_put exPut50 45 30 = .ok q ∧
          q.cash = exPortfolioPut.cash - exPut50.strike * exPut50.contracts * 100 ∧
          dictGet q.stock_positions exPut50.symbol = some
            { symbol := exPut50.symbol, shares := exPut50.contracts * 100,
              cost_basis := exPut50.strike, acquisition_date := 30,
              assigned_from_put := true } ∧
          q.closed_positions = exPortfolioPut.closed_positions ++
            [{ exPut50 with status := .ASSIGNED, exit_date := some 30, stock_price_at_exit := 45 }] ∧
          q.options_positions = exPortfolioPut.options_positions.erase exPut50) :=
  ⟨by simp [exPortfolioPut],
    (C3_assign_put_effects exPortfolioPut exPut50 45 30 (by simp [exPortfolioPut])).1⟩

/-- Every key of `dictSet l sym v` is `v`'s key or a key of `l`. -/
theorem dictSet_symbols_subset (l : List StockPosition) (sym : String) (v : StockPosition)
    (x : String) (hx : x ∈ (dictSet l sym v).map StockPosition.symbol) :
    x = v.symbol ∨ x ∈ l.map StockPosition.symbol := by
  induction l with
  | nil =>
    rw [dictSet] at hx
    simp at hx
    exact Or.inl hx
  | cons h t ih =>
    by_cases hh : h.symbol = sym
    · rw [dictSet, if_pos hh] at hx
      rw [List.map_cons, List.mem_cons] at hx
      rcases hx with h1 | h2
      · exact Or.inl h1
      · exact Or.inr (by rw [List.map_cons, List.mem_cons]; exact Or.inr h2)
    · rw [dictSet, if_neg hh] at hx
      rw [List.map_cons, List.mem_cons] at hx
      rcases hx with h1 | h2
      · exact Or.inr (by rw [List.map_cons, List.mem_cons]; exact Or.inl h1)
      · rcases ih h2 with h3 | h3
        · exact Or.inl h3
        · exact Or.inr (by rw [List.map_cons, List.mem_cons]; exact Or.inr h3)

/-- Dict assignment keeps the keys duplicate-free. -/
theorem dictSet_symbols_nodup (l : List StockPosition) (sym : String) (v : StockPosition)
    (hv : v.symbol = sym) (h : (l.map StockPosition.symbol).Nodup) :
    ((dictSet l sym v).map StockPosition.symbol).Nodup := by
  induction l with
  | nil => simp [dictSet]
  | cons hd t ih =>
    rw [List.map_cons, List.nodup_cons] at h
    obtain ⟨hnotmem, hnd⟩ := h
    by_cases hh : hd.symbol = sym
    · rw [dictSet, if_pos hh, List.map_cons, List.nodup_cons]
      refine ⟨?_, hnd⟩
      rw [hv, ← hh]
      exact hnotmem
    · rw [dictSet, if_neg hh, List.map_cons, List.nodup_cons]
      refine ⟨?_, ih hnd⟩
      intro hmem
      rcases dictSet_symbols_subset t sym v _ hmem with h1 | h2
      · rw [hv] at h1
        exact hh h1
      · exact hnotmem h2

/-- Dict deletion returns a sublist. -/
theorem dictDel_sublist (l : List StockPosition) (sym : String) :
    List.Sublist (dictDel l sym) l := by
  induction l with
  | nil => simp [dictDel]
  | cons h t ih =>
    by_cases hh : h.symbol = sym
    · rw [dictDel, if_pos hh]
      exact List.sublist_cons_self h t
    · rw [dictDel, if_neg hh]
      exact ih.cons₂ h

/-- Dict deletion keeps the keys duplicate-free. -/
theorem dictDel_symbols_nodup (l : List StockPosition) (sym : String)
    (h : (l.map StockPosition.symbol).Nodup) :
    ((dictDel l sym).map StockPosition.symbol).Nodup :=
  ((dictDel_sublist l sym).map StockPosition.symbol).nodup h

/-- Case analysis on `remove_cash`: it either raises with the portfolio
untouched, or returns the debited portfolio. -/
theorem remove_cash_spec (p : Portfolio) (amount : ℚ) (desc : String) :
    (p.cash < amount ∧ p.remove_cash amount desc = .err .insufficientCash p) ∨
      (amount ≤ p.cash ∧ p.remove_cash amount desc = .ok
        { p with
          cash := p.cash - amount
          transaction_history := p.transaction_history ++
            [{ txn_type := "cash_out", amount := amount, description := desc }] }) := by
  by_cases hc : p.cash < amount
  · exact Or.inl ⟨hc, by rw [Portfolio.remove_cash, if_pos hc]⟩
  · exact Or.inr ⟨le_of_not_lt hc, by rw [Portfolio.remove_cash, if_neg hc]⟩

/-- Each portfolio operation preserves key uniqueness of the holdings dict. -/
theorem applyOp_symbolsNodup (p : Portfolio) (op : PortfolioOp) (h : symbolsNodup p) :
    symbolsNodup ((p.applyOp op).portfolio) := by
  cases op with
  | sellPut c =>
    simp only [Portfolio.applyOp, Portfolio.sell_put, Portfolio.add_cash]
    split
    · exact h
    · exact h
  | sellCall c =>
    simp only [Portfolio.applyOp, Portfolio.sell_call, Portfolio.add_cash]
    split
    · exact h
    · split
      · exact h
      · exact h
  | assignPut c price d =>
    simp only [Portfolio.applyOp, Portfolio.assign_put]
    rcases remove_cash_spec p (c.strike * c.contracts * 100) "Put assigned" with
      ⟨hc, heq⟩ | ⟨hc, heq⟩
    · rw [heq]
      exact h
    · rw [heq]
      dsimp only
      split
      · exact dictSet_symbols_nodup p.stock_positions c.symbol _ rfl h
      · exact dictSet_symbols_nodup p.stock_positions c.symbol _ rfl h
  | assignCall c price d =>
    simp only [Portfolio.applyOp, Portfolio.assign_call, Portfolio.add_cash]
    cases hget : dictGet p.stock_positions c.symbol with
    | none =>
      dsimp only
      split
      · exact h
      · exact h
    | some sp =>
      dsimp only
      by_cases hsh : sp.shares = c.contracts * 100
      · rw [if_pos hsh]
        split
        · exact dictDel_symbols_nodup p.stock_positions c.symbol h
        · exact dictDel_symbols_nodup p.stock_positions c.symbol h
      · rw [if_neg hsh]
        split
        · exact dictSet_symbols_nodup p.stock_positions c.symbol _
            (dictGet_symbol p.stock_positions c.symbol sp hget) h
        · exact dictSet_symbols_nodup p.stock_positions c.symbol _
            (dictGet_symbol p.stock_positions c.symbol sp hget) h
  | expireWorthless c d =>
    simp only [Portfolio.applyOp, Portfolio.expire_worthless]
    split
    · exact h
    · exact h

/-- Key uniqueness is preserved along any operation sequence. -/
theorem applyOps_symbolsNodup (p : Portfolio) (ops : List PortfolioOp)
    (h : symbolsNodup p) : symbolsNodup (p.applyOps ops) := by
  induction ops generalizing p with
  | nil => exact h
  | cons op rest ih =>
    rw [Portfolio.applyOps, List.foldl_cons]
    exact ih _ (applyOp_symbolsNodup p op h)

/-- With duplicate-free keys, assigning a key leaves exactly one entry for it. -/
theorem dictSet_filter_key (l : List StockPosition) (sym : String) (v : StockPosition)
    (hv : v.symbol = sym) (h : (l.map StockPosition.symbol).Nodup) :
    (dictSet l sym v).filter (fun sp => sp.symbol == sym) = [v] := by
  induction l with
  | nil => simp [dictSet, List.filter, hv]
  | cons hd t ih =>
    rw [List.map_cons, List.nodup_cons] at h
    obtain ⟨hnotmem, hnd⟩ := h
    by_cases hh : hd.symbol = sym
    · rw [dictSet, if_pos hh]
      have hrest : t.filter (fun sp => sp.symbol == sym) = [] := by
        rw [List.filter_eq_nil_iff]
        intro sp hsp
        simp only [beq_iff_eq]
        intro hcontra
        apply hnotmem
        rw [hh, ← hcontra]
        exact List.mem_map_of_mem StockPosition.symbol hsp
      simp [List.filter_cons, hv, hrest]
    · rw [dictSet, if_neg hh]
      simp [List.filter_cons, hh, ih hnd]

/-! ## Claim C7: holdings form a map with merged entries -/

/-- Claim C7: in every reachable portfolio state the stock holdings form a
mapping from symbol to at most one holding (the key list is duplicate-free),
and when `assign_put` produces shares of a symbol, the holdings for that
symbol collapse to exactly one entry (replaced, never duplicated). -/
theorem C7_holdings_at_most_one_per_symbol (capital : ℚ) (ops : List PortfolioOp)
    (p : Portfolio) (c : OptionsPosition) (price : ℚ) (d : ℤ) (q : Portfolio) :
    symbolsNodup ((Portfolio.init capital).applyOps ops) ∧
      (symbolsNodup p → p.assign_put c price d = .ok q →
        (q.stock_positions.filter (fun sp => sp.symbol == c.symbol)).length = 1) := by
  constructor
  · apply applyOps_symbolsNodup
    simp [symbolsNodup, Portfolio.init]
  · intro hnd hok
    simp only [Portfolio.assign_put] at hok
    rcases remove_cash_spec p (c.strike * c.contracts * 100) "Put assigned" with
      ⟨hc, heq⟩ | ⟨hc, heq⟩
    · rw [heq] at hok
      simp at hok
    · rw [heq] at hok
      dsimp only at hok
      split at hok
      · injection hok with hq
        subst hq
        dsimp only
        rw [dictSet_filter_key p.stock_positions c.symbol
          { symbol := c.symbol, shares := c.contracts * 100, cost_basis := c.strike,
            acquisition_date := d, assigned_from_put := true } rfl hnd]
        rfl
      · simp at hok

/-- Witness for C7: the reachable state after one put sale has
duplicate-free holdings, and a concrete assignment into `exPortfolioPut`
leaves exactly one AAPL holding. -/
theorem C7_holdings_at_most_one_per_symbol_witness :
    symbolsNodup ((Portfolio.init 100000).applyOps [PortfolioOp.sellPut exPut50]) ∧
      (exAfterAssignPut.stock_positions.filter
        (fun sp => sp.symbol == exPut50.symbol)).length = 1 :=
  ⟨(C7_holdings_at_most_one_per_symbol 100000 [PortfolioOp.sellPut exPut50]
      exPortfolioPut exPut50 45 30 exAfterAssignPut).1,
    (C7_holdings_at_most_one_per_symbol 100000 [PortfolioOp.sellPut exPut50]
      exPortfolioPut exPut50 45 30 exAfterAssignPut).2
      (by simp [symbolsNodup, exPortfolioPut])
      (by norm_num [Portfolio.assign_put, Portfolio.remove_cash, exPortfolioPut, exPut50,
        exAfterAssignPut, dictSet, List.erase_cons_head])⟩

/-- One valid operation keeps the cash balance nonnegative, whether it
returns or raises. -/
theorem applyOp_cash_nonneg (p : Portfolio) (op : PortfolioOp)
    (hc : 0 ≤ p.cash) (hv : ValidContract op.position) :
    0 ≤ ((p.applyOp op).portfolio).cash := by
  obtain ⟨hstrike, hcontracts, hprem⟩ := hv
  cases op with
  | sellPut c =>
    obtain ⟨hstrike, hcontracts, hprem⟩ : (0:ℚ) < c.strike ∧ (1:ℤ) ≤ c.contracts ∧
        (0:ℚ) ≤ c.premium_received := ⟨hstrike, hcontracts, hprem⟩
    have hcz : (0:ℤ) ≤ c.contracts := by omega
    have hcq : (0:ℚ) ≤ (c.contracts : ℚ) := by exact_mod_cast hcz
    have hpt : 0 ≤ c.total_premium := by
      rw [OptionsPosition.total_premium]
      positivity
    simp only [Portfolio.applyOp, Portfolio.sell_put, Portfolio.add_cash]
    split
    · exact hc
    · show 0 ≤ p.cash + c.total_premium
      linarith
  | sellCall c =>
    obtain ⟨hstrike, hcontracts, hprem⟩ : (0:ℚ) < c.strike ∧ (1:ℤ) ≤ c.contracts ∧
        (0:ℚ) ≤ c.premium_received := ⟨hstrike, hcontracts, hprem⟩
    have hcz : (0:ℤ) ≤ c.contracts := by omega
    have hcq : (0:ℚ) ≤ (c.contracts : ℚ) := by exact_mod_cast hcz
    have hpt : 0 ≤ c.total_premium := by
      rw [OptionsPosition.total_premium]
      positivity
    simp only [Portfolio.applyOp, Portfolio.sell_call, Portfolio.add_cash]
    split
    · exact hc
    · split
      · exact hc
      · show 0 ≤ p.cash + c.total_premium
        linarith
  | assignPut c price d =>
    simp only [Portfolio.applyOp, Portfolio.assign_put]
    rcases remove_cash_spec p (c.strike * c.contracts * 100) "Put assigned" with
      ⟨hlt, heq⟩ | ⟨hle, heq⟩
    · rw [heq]
      exact hc
    · rw [heq]
      dsimp only
      split
      · show 0 ≤ p.cash - c.strike * c.contracts * 100
        linarith
      · show 0 ≤ p.cash - c.strike * c.contracts * 100
        linarith
  | assignCall c price d =>
    have hcq : (1:ℚ) ≤ (c.contracts : ℚ) := by exact_mod_cast hcontracts
    have hpr : 0 ≤ c.strike * c.contracts * 100 := by positivity
    simp only [Portfolio.applyOp, Portfolio.assign_call, Portfolio.add_cash]
    split
    · show 0 ≤ p.cash + c.strike * c.contracts * 100
      linarith
    · show 0 ≤ p.cash + c.strike * c.contracts * 100
      linarith
  | expireWorthless c d =>
    simp only [Portfolio.applyOp, Portfolio.expire_worthless]
    split
    · exact hc
    · exact hc

/-- Cash stays nonnegative along any sequence of valid operations. -/
theorem applyOps_cash_nonneg (p : Portfolio) (ops : List PortfolioOp)
    (hc : 0 ≤ p.cash) (hv : ∀ op ∈ ops, ValidContract op.position) :
    0 ≤ (p.applyOps ops).cash := by
  induction ops generalizing p with
  | nil => exact hc
  | cons op rest ih =>
    rw [Portfolio.applyOps, List.foldl_cons]
    exact ih _ (applyOp_cash_nonneg p op hc (hv op (by simp)))
      (fun o ho => hv o (by simp [ho]))

/-- Membership in `insertUnique`. -/
theorem insertUnique_mem (x z : ℤ) (l : List ℤ) :
    z ∈ insertUnique x l ↔ z = x ∨ z ∈ l := by
  induction l with
  | nil => simp [insertUnique]
  | cons y t ih =>
    rw [insertUnique]
    by_cases h1 : x < y
    · rw [if_pos h1]
      simp
    · rw [if_neg h1]
      by_cases h2 : x = y
      · rw [if_pos h2]
        subst h2
        simp
      · rw [if_neg h2]
        simp [ih]
        tauto

/-- `insertUnique` preserves strict sortedness. -/
theorem insertUnique_sorted (x : ℤ) (l : List ℤ) (h : List.Sorted (· < ·) l) :
    List.Sorted (· < ·) (insertUnique x l) := by
  induction l with
  | nil => simp [insertUnique]
  | cons y t ih =>
    rw [List.sorted_cons] at h
    obtain ⟨hy, ht⟩ := h
    rw [insertUnique]
    by_cases h1 : x < y
    · rw [if_pos h1, List.sorted_cons]
      refine ⟨?_, List.sorted_cons.mpr ⟨hy, ht⟩⟩
      intro z hz
      rw [List.mem_cons] at hz
      rcases hz with hz | hz
      · omega
      · have := hy z hz
        omega
    · rw [if_neg h1]
      by_cases h2 : x = y
      · rw [if_pos h2, List.sorted_cons]
        exact ⟨hy, ht⟩
      · rw [if_neg h2, List.sorted_cons]
        refine ⟨?_, ih ht⟩
        intro z hz
        rw [insertUnique_mem] at hz
        rcases hz with hz | hz
        · omega
        · exact hy z hz

/-- `sortedDedup` returns a strictly ascending (hence duplicate-free) list. -/
theorem sortedDedup_sorted (l : List ℤ) : List.Sorted (· < ·) (sortedDedup l) := by
  induction l with
  | nil => simp [sortedDedup]
  | cons a t ih =>
    rw [sortedDedup, List.foldr_cons]
    exact insertUnique_sorted a _ ih

/-- `sortedDedup` keeps exactly the values of its input. -/
theorem sortedDedup_mem (l : List ℤ) (z : ℤ) : z ∈ sortedDedup l ↔ z ∈ l := by
  induction l with
  | nil => simp [sortedDedup]
  | cons a t ih =>
    rw [sortedDedup, List.foldr_cons]
    rw [insertUnique_mem]
    rw [List.mem_cons]
    rw [← sortedDedup, ih]

set_option maxRecDepth 10000

/-! ## Claim C8: the strike ladder -/

/-- Counterexample for C8 as stated: under exact IEEE-754 binary64 semantics
`generate_strike_prices(100, 3, 0.025)` is not the claimed ladder
`[92, 95, 97, 100, 102, 105, 107]` (the candidates at `i = -1` and `i = 3`
compute to exactly `97.5` and `107.5`, which Python's `round` takes to the
even integers 98 and 108). -/
theorem C8_generate_strikes_counterexample :
    ¬ (generate_strike_prices (dbl 100) 3 lit_0_025
      = [92, 95, 97, 100, 102, 105, 107].map dbl) := by decide

/-- Claim C8 (amended): `generate_strike_prices(spot, n, spacing)` produces
the `2·n + 1` candidates `spot * (1 + i·spacing)` for `i` in `[-n, n]` in
binary64 arithmetic, rounds each candidate below 50 to the nearest 0.50 and
each candidate at or above 50 to the nearest whole unit (ties to even), and
returns exactly the candidate values, deduplicated, in strictly ascending
order; in particular `generate_strike_prices(100, 3, 0.025)` yields the 7
ascending whole-number strikes 92, 95, 98, 100, 102, 105, 108. -/
theorem C8_generate_strikes_amended :
    (∀ (sp spc n : ℤ), 0 ≤ n →
      ((rangeZ (-n) (n + 1)).map (strikeCandidate sp spc)).length = (2 * n + 1).toNat) ∧
    (∀ sp n spc, List.Sorted (· < ·) (generate_strike_prices sp n spc)) ∧
    (∀ sp n spc x, x ∈ generate_strike_prices sp n spc ↔
      x ∈ (rangeZ (-n) (n + 1)).map (strikeCandidate sp spc)) ∧
    generate_strike_prices (dbl 100) 3 lit_0_025 = [92, 95, 98, 100, 102, 105, 108].map dbl := by
  refine ⟨?_, ?_, ?_, by decide⟩
  · intro sp spc n hn
    simp only [rangeZ, List.length_map, List.length_range]
    omega
  · intro sp n spc
    rw [generate_strike_prices]
    exact sortedDedup_sorted _
  · intro sp n spc x
    rw [generate_strike_prices]
    exact sortedDedup_mem _ x

/-- Witness for C8 (amended) at `spot = 100`, `n = 3`, `spacing = 0.025`. -/
theorem C8_generate_strikes_amended_witness :
    (0:ℤ) ≤ 3 ∧
      ((rangeZ (-3) (3 + 1)).map (strikeCandidate (dbl 100) lit_0_025)).length
        = ((2 * 3 + 1 : ℤ)).toNat ∧
      List.Sorted (· < ·) (generate_strike_prices (dbl 100) 3 lit_0_025) :=
  ⟨by norm_num,
    C8_generate_strikes_amended.1 (dbl 100) lit_0_025 3 (by norm_num),
    C8_generate_strikes_amended.2.1 (dbl 100) 3 lit_0_025⟩

/-! ## Claim C1: portfolio cash is never negative -/

/-- Claim C1: for every sequence of valid portfolio operations (`sell_put`,
`sell_call`, `assign_put`, `assign_call`, `expire_worthless`) whose stated
preconditions hold at each call, starting from a nonnegative initial
capital, the cash balance is nonnegative after every prefix of the sequence.
Contract validity is the data-model invariant (`strike > 0`,
`contracts ≥ 1`) together with a nonnegative premium, which the engine
guarantees because the pricing model floors premiums at zero. -/
theorem C1_cash_never_negative (capital : ℚ) (ops : List PortfolioOp)
    (hcap : 0 ≤ capital)
    (hvalid : ∀ op ∈ ops, ValidContract op.position)
    (_hpre : PrecondsHold (Portfolio.init capital) ops)
    (pre suf : List PortfolioOp) (hsplit : ops = pre ++ suf) :
    0 ≤ ((Portfolio.init capital).applyOps pre).cash := by
  apply applyOps_cash_nonneg
  · exact hcap
  · intro op hop
    apply hvalid op
    rw [hsplit]
    exact List.mem_append_left suf hop

/-- Witness for C1: selling `exPut50` from 100000 of starting capital. -/
theorem C1_cash_never_negative_witness :
    (0:ℚ) ≤ 100000 ∧
      (∀ op ∈ [PortfolioOp.sellPut exPut50], ValidContract op.position) ∧
      PrecondsHold (Portfolio.init 100000) [PortfolioOp.sellPut exPut50] ∧
      0 ≤ ((Portfolio.init 100000).applyOps [PortfolioOp.sellPut exPut50]).cash := by
  have hvalid : ∀ op ∈ [PortfolioOp.sellPut exPut50], ValidContract op.position := by
    intro op hop
    rw [List.mem_singleton] at hop
    subst hop
    exact ⟨by norm_num [PortfolioOp.position, exPut50],
      by norm_num [PortfolioOp.position, exPut50],
      by norm_num [PortfolioOp.position, exPut50]⟩
  have hstep : (Portfolio.init 100000).applyOp (PortfolioOp.sellPut exPut50)
      = .ok exAfterSellPut := by
    norm_num [Portfolio.applyOp, Portfolio.sell_put, Portfolio.add_cash, Portfolio.init,
      exPut50, exAfterSellPut, OptionsPosition.total_premium]
  have hpre : PrecondsHold (Portfolio.init 100000) [PortfolioOp.sellPut exPut50] :=
    ⟨⟨exAfterSellPut, hstep⟩, trivial⟩
  exact ⟨by norm_num, hvalid, hpre,
    C1_cash_never_negative 100000 [PortfolioOp.sellPut exPut50] (by norm_num) hvalid hpre
      [PortfolioOp.sellPut exPut50] [] rfl⟩

/-! ## Claim C10: call assignment never checks coverage -/

/-- Claim C10: for every portfolio state in which the holding for the
contract's symbol is absent or has a share count different from
`contracts * 100`, `assign_call` performs no coverage check and still
succeeds: it credits cash by `strike * contracts * 100`, marks the contract
`CALLED_AWAY` and moves it from open to closed; and when a holding exists,
its share count is simply decremented, going below zero (rather than being
rejected) whenever it held fewer than `contracts * 100` shares. -/
theorem C10_assign_call_no_coverage_check (p : Portfolio) (c : OptionsPosition)
    (price : ℚ) (d : ℤ)
    (hmem : c ∈ p.options_positions)
    (hcover : dictGet p.stock_positions c.symbol = none ∨
      ∃ sp, dictGet p.stock_positions c.symbol = some sp ∧
        sp.shares ≠ c.contracts * 100) :
    ∃ q, p.assign_call c price d = .ok q ∧
      q.cash = p.cash + c.strike * c.contracts * 100 ∧
      q.closed_positions = p.closed_positions ++
        [{ c with status := .CALLED_AWAY, exit_date := some d, stock_price_at_exit := price }] ∧
      q.options_positions = p.options_positions.erase c ∧
      ∀ sp, dictGet p.stock_positions c.symbol = some sp →
        dictGet q.stock_positions c.symbol
            = some { sp with shares := sp.shares - c.contracts * 100 } ∧
          (sp.shares < c.contracts * 100 → sp.shares - c.contracts * 100 < 0) := by
  rcases hcover with hnone | ⟨sp, hsp, hne⟩
  · simp only [Portfolio.assign_call, Portfolio.add_cash, hnone]
    rw [if_pos hmem]
    refine ⟨_, rfl, rfl, rfl, rfl, ?_⟩
    intro sp' hsp'
    exact absurd hsp' (by simp)
  · simp only [Portfolio.assign_call, Portfolio.add_cash, hsp]
    rw [if_neg hne]
    rw [if_pos hmem]
    refine ⟨_, rfl, rfl, rfl, rfl, ?_⟩
    intro sp' hsp'
    have hspeq : sp' = sp := by
      injection hsp' with h
      exact h.symm
    subst hspeq
    constructor
    · exact dictGet_dictSet_self _ _ _ (dictGet_symbol p.stock_positions c.symbol sp' hsp)
    · intro hlt
      omega

/-- Witness for C10: `exPortfolioCall` holds 40 shares against a call for 100
shares; assignment still succeeds and drives the share count to -60. -/
theorem C10_assign_call_no_coverage_check_witness :
    exCall50 ∈ exPortfolioCall.options_positions ∧
      (∃ sp, dictGet exPortfolioCall.stock_positions exCall50.symbol = some sp ∧
        sp.shares ≠ exCall50.contracts * 100) ∧
      ∃ q, exPortfolioCall.assign_call exCall50 55 30 = .ok q ∧
        q.cash = exPortfolioCall.cash + exCall50.strike * exCall50.contracts * 100 ∧
        q.closed_positions = exPortfolioCall.closed_positions ++
          [{ exCall50 with status := .CALLED_AWAY, exit_date := some 30, stock_price_at_exit := 55 }] ∧
        q.options_positions = exPortfolioCall.options_positions.erase exCall50 ∧
        ∀ sp, dictGet exPortfolioCall.stock_positions exCall50.symbol = some sp →
          dictGet q.stock_positions exCall50.symbol
              = some { sp with shares := sp.shares - exCall50.contracts * 100 } ∧
            (sp.shares < exCall50.contracts * 100 →
              sp.shares - exCall50.contracts * 100 < 0) :=
  ⟨by simp [exPortfolioCall],
    ⟨exHolding40,
      by simp [exPortfolioCall, exCall50, dictGet, List.find?_cons, exHolding40],
      by norm_num [exCall50, exHolding40]⟩,
    C10_assign_call_no_coverage_check exPortfolioCall exCall50 55 30
      (by simp [exPortfolioCall])
      (Or.inr ⟨exHolding40,
        by simp [exPortfolioCall, exCall50, dictGet, List.find?_cons, exHolding40],
        by norm_num [exCall50, exHolding40]⟩)⟩

/-- Witness for C9: index 0 of three dates, advancing by 5; the stale current
date 10 differs from the date 12 stored at the clamped index. -/
theorem C9_overshoot_leaves_date_stale_witness :
    0 ≤ exSim.current_date_index ∧
      exSim.current_date_index < (exSim.trading_dates.length : ℤ) - 1 ∧
      ∃ s1, exSim.advance_day exPriceAt 5 = .ok (false, []) s1 ∧
        s1.current_date_index = (exSim.trading_dates.length : ℤ) - 1 ∧
        s1.current_date = exSim.current_date ∧
        s1.portfolio = exSim.portfolio ∧
        s1.current_date ≠ s1.trading_dates.getD s1.current_date_index.toNat 0 :=
  ⟨by norm_num [exSim], by norm_num [exSim],
    C9_overshoot_leaves_date_stale exSim exPriceAt 5 (by norm_num [exSim])
      (by norm_num [exSim]) (by norm_num [exSim]) (by norm_num [exSim])
      (by norm_num [exSim])⟩

end WheelSim
